import Mathlib

/-!
Verification of the clause-generation and safety-classification core of the
skeema/tengo schema-diffing engine, as implemented in
vendor/github.com/skeema/tengo/alterclause.go.

Go strings restricted to the ASCII range (the normalized MySQL type strings
the classifier consumes, and option/identifier text) are modelled as lists of
characters.  Pure Go functions become Lean functions; the regular expressions
of the source, all anchored patterns over a fixed small grammar, are
translated into hand-written anchored parsers returning Option, with none
playing the role of regexp.FindStringSubmatch returning nil.
-/

namespace Tengo

/-- Go strings on the ASCII range, modelled as lists of characters. -/
abbrev GoStr := List Char

/-- Abbreviation turning a Lean string literal into the list-of-characters model. -/
def gs (s : String) : GoStr := s.data

/-- Model of strings.ToLower from the Go standard library on the ASCII range
(Char.toLower lowercases exactly the ASCII uppercase letters, as Go does
on ASCII input). -/
def goToLower (s : GoStr) : GoStr := s.map Char.toLower

/-- Model of strings.HasPrefix: hasPrefix s p is true when p is a leading
segment of s. -/
def hasPrefix (s p : GoStr) : Bool := p.isPrefixOf s

/-- Model of strings.Contains: goContains s sub is true when sub occurs as a
contiguous substring of s. -/
def goContains : GoStr → GoStr → Bool
  | [], sub => sub.isEmpty
  | c :: rest, sub => sub.isPrefixOf (c :: rest) || goContains rest sub

/-- Model of strings.ContainsRune. -/
def containsRune (s : GoStr) (c : Char) : Bool := s.contains c

/-- Numeric value of a run of decimal digits, as strconv.Atoi computes it.
The source discards the error result of Atoi; its range-error case is
unreachable here because MySQL numeric type parameters (precision at most 65,
declared lengths at most 65535, fractional-second precision at most 6) are far
below the 64-bit range on the engine-reported type strings the classifier is
documented to consume. -/
def digitsToNat (ds : GoStr) : Nat := ds.foldl (fun a c => a * 10 + (c.toNat - 48)) 0

/-- Translation of the anchored pattern PFX\((\d+),(\d+)\) for a literal
prefix PFX: the two captured digit runs, or none when the pattern does not
match (FindStringSubmatch returning nil).  The greedy digit runs of the
pattern are maximal digit runs here; backtracking cannot produce any other
match because a shorter digit run is necessarily followed by a digit. -/
def matchTwoNums (pfx : GoStr) (s : GoStr) : Option (Nat × Nat) :=
  if hasPrefix s (pfx ++ ['(']) then
    let rest := s.drop (pfx.length + 1)
    let d1 := rest.takeWhile Char.isDigit
    match rest.dropWhile Char.isDigit with
    | ',' :: rest2 =>
      let d2 := rest2.takeWhile Char.isDigit
      match rest2.dropWhile Char.isDigit with
      | ')' :: _ => if d1 ≠ [] ∧ d2 ≠ [] then some (digitsToNat d1, digitsToNat d2) else none
      | _ => none
    | _ => none
  else none

/-- Translation of the anchored pattern PFX\((\d+)\) for a literal prefix PFX. -/
def matchOneNum (pfx : GoStr) (s : GoStr) : Option Nat :=
  if hasPrefix s (pfx ++ ['(']) then
    let rest := s.drop (pfx.length + 1)
    let d1 := rest.takeWhile Char.isDigit
    match rest.dropWhile Char.isDigit with
    | ')' :: _ => if d1 ≠ [] then some (digitsToNat d1) else none
    | _ => none
  else none

/-- Translation of the anchored pattern [^(]+\((\d+)\) used for
fractional-second precision: a nonempty run of characters other than an
opening parenthesis, then a parenthesized digit run. -/
def matchFsp (s : GoStr) : Option Nat :=
  let pre := s.takeWhile (fun c => c ≠ '(')
  match s.dropWhile (fun c => c ≠ '(') with
  | '(' :: rest1 =>
    let d1 := rest1.takeWhile Char.isDigit
    match rest1.dropWhile Char.isDigit with
    | ')' :: _ => if pre ≠ [] ∧ d1 ≠ [] then some (digitsToNat d1) else none
    | _ => none
  | _ => none

/-- Translation of the pattern var(?:char|binary)\((\d+)\): the alternation is
tried left to right; a string cannot start with both alternatives. -/
def matchVar (s : GoStr) : Option Nat :=
  (matchOneNum (gs "varchar") s).orElse (fun _ => matchOneNum (gs "varbinary") s)

/-- Translation of the pattern (?:float|double)\((\d+),(\d+)\). -/
def matchFD (s : GoStr) : Option (Nat × Nat) :=
  (matchTwoNums (gs "float") s).orElse (fun _ => matchTwoNums (gs "double") s)

/-- Translation of the bothSamePrefix closure of ModifyColumn.Unsafe: some
candidate is a leading segment of both type strings. -/
def bothSamePrefix (oldType newType : GoStr) (cands : List GoStr) : Bool :=
  cands.any (fun c => hasPrefix oldType c && hasPrefix newType c)

/-- Loop body of the ranking scan inside isSafeSizeChange: index of the last
entry of the ranking that is a leading segment of t, carried as accumulator. -/
def goRank (t : GoStr) : List GoStr → Nat → Int → Int
  | [], _, acc => acc
  | p :: ps, n, acc => goRank t ps (n + 1) (if hasPrefix t p then (n : Int) else acc)

/-- Rank of t within a ranking, -1 when no entry matches (the oldRank/newRank
computation of the source). -/
def rankIn (ranking : List GoStr) (t : GoStr) : Int := goRank t ranking 0 (-1)

/-- Translation of the isSafeSizeChange closure of ModifyColumn.Unsafe. -/
def isSafeSizeChange (oldType newType : GoStr) (ranking : List GoStr) : Bool :=
  let oldRank := rankIn ranking oldType
  let newRank := rankIn ranking newType
  if oldRank = -1 ∨ newRank = -1 then false else decide (oldRank ≤ newRank)

/-- Integer family ranking of the source. -/
def intRank : List GoStr := [gs "tinyint", gs "smallint", gs "mediumint", gs "int", gs "bigint"]

/-- Blob family ranking of the source. -/
def blobRank : List GoStr := [gs "tinyblob", gs "blob", gs "mediumblob", gs "longblob"]

/-- Text family ranking of the source. -/
def textRank : List GoStr := [gs "tinytext", gs "text", gs "mediumtext", gs "longtext"]

/-- Model of the Column fields the alter clauses consume: the engine-reported
type string and the character set. -/
structure Column where
  TypeInDB : GoStr
  CharSet : GoStr

/-- ModifyColumn represents a column that exists in both versions of the table
but with a different definition.  The Table pointer of the source, consumed
only by clause rendering (which no claim concerns), is not modelled. -/
structure ModifyColumn where
  OldColumn : Column
  NewColumn : Column
  PositionFirst : Bool
  PositionAfter : Option Column

/-- Continuation of the translation of ModifyColumn.Unsafe from the enum/set
family rule on, over the already lowercased type strings.  The slice
oldType[0:len(oldType)-1] of the source is dropLast; the source would panic on
an empty oldType, but the guard requires oldType to start with enum or set, so
the two agree on every reachable input. -/
def classifyTail (oldType newType : GoStr) : Bool :=
  if bothSamePrefix oldType newType [gs "enum", gs "set"] then
    !hasPrefix newType oldType.dropLast
  else if bothSamePrefix oldType newType [gs "decimal"] then
    match matchTwoNums (gs "decimal") oldType, matchTwoNums (gs "decimal") newType with
    | some (oldPrecision, oldScale), some (newPrecision, newScale) =>
      decide (newPrecision < oldPrecision) || decide (newScale < oldScale)
    | _, _ => true
  else if bothSamePrefix oldType newType [gs "varchar", gs "varbinary"] then
    match matchVar oldType, matchVar newType with
    | some oldSize, some newSize => decide (newSize < oldSize)
    | _, _ => true
  else if bothSamePrefix oldType newType [gs "time", gs "timestamp", gs "datetime"] then
    if !containsRune oldType '(' then false
    else if !containsRune newType '(' then true
    else
      match matchFsp oldType, matchFsp newType with
      | some oldSize, some newSize => decide (newSize < oldSize)
      | _, _ => true
  else if bothSamePrefix oldType newType [gs "float", gs "double"]
      || (hasPrefix oldType (gs "float") && hasPrefix newType (gs "double")) then
    if !containsRune newType '(' then false
    else if !containsRune oldType '(' then true
    else
      match matchFD oldType, matchFD newType with
      | some (oldPrecision, oldScale), some (newPrecision, newScale) =>
        decide (newPrecision < oldPrecision) || decide (newScale < oldScale)
      | _, _ => true
  else if isSafeSizeChange oldType newType intRank || isSafeSizeChange oldType newType blobRank
      || isSafeSizeChange oldType newType textRank then
    false
  else true

/-- Translation of ModifyColumn.Unsafe of alterclause.go: the character-set
rule, the identical-type rule and the signedness rule, then the family rules
carried out by classifyTail. -/
def ModifyColumn.Unsafe (mc : ModifyColumn) : Bool :=
  if mc.OldColumn.CharSet ≠ mc.NewColumn.CharSet then true
  else if goToLower mc.OldColumn.TypeInDB = goToLower mc.NewColumn.TypeInDB then false
  else if (goContains (goToLower mc.OldColumn.TypeInDB) (gs "unsigned")
        && !goContains (goToLower mc.NewColumn.TypeInDB) (gs "unsigned"))
      || (!goContains (goToLower mc.OldColumn.TypeInDB) (gs "unsigned")
        && goContains (goToLower mc.NewColumn.TypeInDB) (gs "unsigned")) then true
  else classifyTail (goToLower mc.OldColumn.TypeInDB) (goToLower mc.NewColumn.TypeInDB)

/-! Helper lemmas about the string model. -/

/-- Two leading segments of the same string are comparable; a string with
leading segment p cannot also have leading segment q when neither of p and q
is a leading segment of the other. -/
theorem hasPrefix_false_of (s p q : GoStr) (h : hasPrefix s p = true)
    (hpq : (p.isPrefixOf q || q.isPrefixOf p) = false) : hasPrefix s q = false := by
  rw [Bool.or_eq_false_iff] at hpq
  by_contra hc
  rw [Bool.not_eq_false] at hc
  unfold hasPrefix at h hc
  rw [List.isPrefixOf_iff_prefix] at h hc
  have hor := List.prefix_or_prefix_of_prefix h hc
  cases hor with
  | inl hh => rw [(List.isPrefixOf_iff_prefix).mpr hh] at hpq; exact Bool.noConfusion hpq.1
  | inr hh => rw [(List.isPrefixOf_iff_prefix).mpr hh] at hpq; exact Bool.noConfusion hpq.2

/-- A string with its last element removed is a leading segment of itself. -/
theorem hasPrefix_dropLast_self (l : GoStr) : hasPrefix l l.dropLast = true := by
  unfold hasPrefix
  rw [List.isPrefixOf_iff_prefix, List.dropLast_eq_take]
  exact List.take_prefix _ _

/-- The ranking scan returns its accumulator when no ranking entry matches. -/
theorem goRank_const (t : GoStr) (ps : List GoStr) (h : ∀ p ∈ ps, hasPrefix t p = false) :
    ∀ n acc, goRank t ps n acc = acc := by
  induction ps with
  | nil => intro n acc; rfl
  | cons p ps ih =>
    intro n acc
    have hp : hasPrefix t p = false := h p (List.mem_cons_self _ _)
    rw [goRank, hp]
    simpa using ih (fun q hq => h q (List.mem_cons_of_mem _ hq)) (n + 1) acc

/-- A type string matching no entry of a ranking makes isSafeSizeChange false. -/
theorem isSafeSizeChange_false_of_old (oT nT : GoStr) (ranking : List GoStr)
    (h : ∀ p ∈ ranking, hasPrefix oT p = false) : isSafeSizeChange oT nT ranking = false := by
  have hrank : rankIn ranking oT = -1 := goRank_const oT ranking h 0 (-1)
  simp [isSafeSizeChange, hrank]

/-- Unsafe with equal character sets and equal lowercased type strings is false. -/
theorem Unsafe_false_of_eq (mc : ModifyColumn)
    (hcs : mc.OldColumn.CharSet = mc.NewColumn.CharSet)
    (heq : goToLower mc.OldColumn.TypeInDB = goToLower mc.NewColumn.TypeInDB) :
    mc.Unsafe = false := by
  unfold ModifyColumn.Unsafe
  rw [if_neg (by simp [hcs]), if_pos heq]

/-- Under equal character sets, distinct lowercased type strings and agreeing
signedness, Unsafe is decided by the family rules of classifyTail. -/
theorem Unsafe_core (mc : ModifyColumn)
    (hcs : mc.OldColumn.CharSet = mc.NewColumn.CharSet)
    (hne : goToLower mc.OldColumn.TypeInDB ≠ goToLower mc.NewColumn.TypeInDB)
    (hsign : goContains (goToLower mc.OldColumn.TypeInDB) (gs "unsigned")
           = goContains (goToLower mc.NewColumn.TypeInDB) (gs "unsigned")) :
    mc.Unsafe = classifyTail (goToLower mc.OldColumn.TypeInDB) (goToLower mc.NewColumn.TypeInDB) := by
  unfold ModifyColumn.Unsafe
  rw [if_neg (by simp [hcs]), if_neg hne, if_neg]
  rw [hsign]
  cases goContains (goToLower mc.NewColumn.TypeInDB) (gs "unsigned") <;> simp

/-! Branch lemmas for classifyTail. -/

/-- The enum/set family branch. -/
theorem classifyTail_enum_set (oT nT : GoStr)
    (hg : bothSamePrefix oT nT [gs "enum", gs "set"] = true) :
    classifyTail oT nT = !hasPrefix nT oT.dropLast := by
  unfold classifyTail
  rw [if_pos hg]

/-- The decimal family branch. -/
theorem classifyTail_decimal (oT nT : GoStr)
    (ho : hasPrefix oT (gs "decimal") = true) (hn : hasPrefix nT (gs "decimal") = true) :
    classifyTail oT nT =
      match matchTwoNums (gs "decimal") oT, matchTwoNums (gs "decimal") nT with
      | some (oldPrecision, oldScale), some (newPrecision, newScale) =>
        decide (newPrecision < oldPrecision) || decide (newScale < oldScale)
      | _, _ => true := by
  have e1 : hasPrefix oT (gs "enum") = false := hasPrefix_false_of _ _ _ ho (by decide)
  have e2 : hasPrefix oT (gs "set") = false := hasPrefix_false_of _ _ _ ho (by decide)
  unfold classifyTail
  rw [if_neg (by simp [bothSamePrefix, e1, e2]), if_pos (by simp [bothSamePrefix, ho, hn])]

/-- The varchar/varbinary family branch. -/
theorem classifyTail_var (oT nT : GoStr)
    (hfam : (hasPrefix oT (gs "varchar") = true ∧ hasPrefix nT (gs "varchar") = true)
          ∨ (hasPrefix oT (gs "varbinary") = true ∧ hasPrefix nT (gs "varbinary") = true)) :
    classifyTail oT nT =
      match matchVar oT, matchVar nT with
      | some oldSize, some newSize => decide (newSize < oldSize)
      | _, _ => true := by
  have ho : hasPrefix oT (gs "var") = true := by
    rcases hfam with ⟨h1, _⟩ | ⟨h1, _⟩ <;>
      { unfold hasPrefix at h1 ⊢
        rw [List.isPrefixOf_iff_prefix] at h1 ⊢
        exact List.IsPrefix.trans (by decide) h1 }
  have e1 : hasPrefix oT (gs "enum") = false := hasPrefix_false_of _ _ _ ho (by decide)
  have e2 : hasPrefix oT (gs "set") = false := hasPrefix_false_of _ _ _ ho (by decide)
  have e3 : hasPrefix oT (gs "decimal") = false := hasPrefix_false_of _ _ _ ho (by decide)
  have hg : bothSamePrefix oT nT [gs "varchar", gs "varbinary"] = true := by
    rcases hfam with ⟨h1, h2⟩ | ⟨h1, h2⟩ <;> simp [bothSamePrefix, h1, h2]
  unfold classifyTail
  rw [if_neg (by simp [bothSamePrefix, e1, e2]),
      if_neg (by simp [bothSamePrefix, e3]), if_pos hg]

/-- The fractional-second-precision branch when the old type string carries no
parenthetical. -/
theorem classifyTail_time_noparen (oT nT : GoStr)
    (ho : hasPrefix oT (gs "time") = true) (hn : hasPrefix nT (gs "time") = true)
    (hp : containsRune oT '(' = false) :
    classifyTail oT nT = false := by
  have e1 : hasPrefix oT (gs "enum") = false := hasPrefix_false_of _ _ _ ho (by decide)
  have e2 : hasPrefix oT (gs "set") = false := hasPrefix_false_of _ _ _ ho (by decide)
  have e3 : hasPrefix oT (gs "decimal") = false := hasPrefix_false_of _ _ _ ho (by decide)
  have e4 : hasPrefix oT (gs "varchar") = false := hasPrefix_false_of _ _ _ ho (by decide)
  have e5 : hasPrefix oT (gs "varbinary") = false := hasPrefix_false_of _ _ _ ho (by decide)
  unfold classifyTail
  rw [if_neg (by simp [bothSamePrefix, e1, e2]),
      if_neg (by simp [bothSamePrefix, e3]),
      if_neg (by simp [bothSamePrefix, e4, e5]),
      if_pos (by simp [bothSamePrefix, ho, hn]),
      if_pos (by rw [hp]; rfl)]

/-- The float/double family branch, for the combinations the source treats by
the precision rule: both float, both double, or float widened to double. -/
theorem classifyTail_fd (oT nT : GoStr)
    (hfam : (hasPrefix oT (gs "float") = true ∧ hasPrefix nT (gs "float") = true)
          ∨ (hasPrefix oT (gs "double") = true ∧ hasPrefix nT (gs "double") = true)
          ∨ (hasPrefix oT (gs "float") = true ∧ hasPrefix nT (gs "double") = true)) :
    classifyTail oT nT =
      (if !containsRune nT '(' then false
       else if !containsRune oT '(' then true
       else
         match matchFD oT, matchFD nT with
         | some (oldPrecision, oldScale), some (newPrecision, newScale) =>
           decide (newPrecision < oldPrecision) || decide (newScale < oldScale)
         | _, _ => true) := by
  have ho : hasPrefix oT (gs "float") = true ∨ hasPrefix oT (gs "double") = true := by
    rcases hfam with ⟨h1, _⟩ | ⟨h1, _⟩ | ⟨h1, _⟩
    · exact Or.inl h1
    · exact Or.inr h1
    · exact Or.inl h1
  have e1 : hasPrefix oT (gs "enum") = false := by
    rcases ho with h | h <;> exact hasPrefix_false_of _ _ _ h (by decide)
  have e2 : hasPrefix oT (gs "set") = false := by
    rcases ho with h | h <;> exact hasPrefix_false_of _ _ _ h (by decide)
  have e3 : hasPrefix oT (gs "decimal") = false := by
    rcases ho with h | h <;> exact hasPrefix_false_of _ _ _ h (by decide)
  have e4 : hasPrefix oT (gs "varchar") = false := by
    rcases ho with h | h <;> exact hasPrefix_false_of _ _ _ h (by decide)
  have e5 : hasPrefix oT (gs "varbinary") = false := by
    rcases ho with h | h <;> exact hasPrefix_false_of _ _ _ h (by decide)
  have e6 : hasPrefix oT (gs "time") = false := by
    rcases ho with h | h <;> exact hasPrefix_false_of _ _ _ h (by decide)
  have e7 : hasPrefix oT (gs "timestamp") = false := by
    rcases ho with h | h <;> exact hasPrefix_false_of _ _ _ h (by decide)
  have e8 : hasPrefix oT (gs "datetime") = false := by
    rcases ho with h | h <;> exact hasPrefix_false_of _ _ _ h (by decide)
  have hg : (bothSamePrefix oT nT [gs "float", gs "double"]
      || (hasPrefix oT (gs "float") && hasPrefix nT (gs "double"))) = true := by
    rcases hfam with ⟨h1, h2⟩ | ⟨h1, h2⟩ | ⟨h1, h2⟩ <;> simp [bothSamePrefix, h1, h2]
  unfold classifyTail
  rw [if_neg (by simp [bothSamePrefix, e1, e2]),
      if_neg (by simp [bothSamePrefix, e3]),
      if_neg (by simp [bothSamePrefix, e4, e5]),
      if_neg (by simp [bothSamePrefix, e6, e7, e8]),
      if_pos hg]

/-- Narrowing double to float falls through every family branch and hits the
conservative default. -/
theorem classifyTail_double_float (oT nT : GoStr)
    (ho : hasPrefix oT (gs "double") = true) (hn : hasPrefix nT (gs "float") = true) :
    classifyTail oT nT = true := by
  have e1 : hasPrefix oT (gs "enum") = false := hasPrefix_false_of _ _ _ ho (by decide)
  have e2 : hasPrefix oT (gs "set") = false := hasPrefix_false_of _ _ _ ho (by decide)
  have e3 : hasPrefix oT (gs "decimal") = false := hasPrefix_false_of _ _ _ ho (by decide)
  have e4 : hasPrefix oT (gs "varchar") = false := hasPrefix_false_of _ _ _ ho (by decide)
  have e5 : hasPrefix oT (gs "varbinary") = false := hasPrefix_false_of _ _ _ ho (by decide)
  have e6 : hasPrefix oT (gs "time") = false := hasPrefix_false_of _ _ _ ho (by decide)
  have e7 : hasPrefix oT (gs "timestamp") = false := hasPrefix_false_of _ _ _ ho (by decide)
  have e8 : hasPrefix oT (gs "datetime") = false := hasPrefix_false_of _ _ _ ho (by decide)
  have e9 : hasPrefix oT (gs "float") = false := hasPrefix_false_of _ _ _ ho (by decide)
  have e10 : hasPrefix nT (gs "double") = false := hasPrefix_false_of _ _ _ hn (by decide)
  have hint : ∀ p ∈ intRank, hasPrefix oT p = false := by
    intro p hp
    simp only [intRank, List.mem_cons, List.not_mem_nil, or_false] at hp
    rcases hp with rfl | rfl | rfl | rfl | rfl <;> exact hasPrefix_false_of _ _ _ ho (by decide)
  have hblob : ∀ p ∈ blobRank, hasPrefix oT p = false := by
    intro p hp
    simp only [blobRank, List.mem_cons, List.not_mem_nil, or_false] at hp
    rcases hp with rfl | rfl | rfl | rfl <;> exact hasPrefix_false_of _ _ _ ho (by decide)
  have htext : ∀ p ∈ textRank, hasPrefix oT p = false := by
    intro p hp
    simp only [textRank, List.mem_cons, List.not_mem_nil, or_false] at hp
    rcases hp with rfl | rfl | rfl | rfl <;> exact hasPrefix_false_of _ _ _ ho (by decide)
  unfold classifyTail
  rw [if_neg (by simp [bothSamePrefix, e1, e2]),
      if_neg (by simp [bothSamePrefix, e3]),
      if_neg (by simp [bothSamePrefix, e4, e5]),
      if_neg (by simp [bothSamePrefix, e6, e7, e8]),
      if_neg (by simp [bothSamePrefix, e9, e10]),
      if_neg (by simp [isSafeSizeChange_false_of_old _ _ _ hint,
                       isSafeSizeChange_false_of_old _ _ _ hblob,
                       isSafeSizeChange_false_of_old _ _ _ htext])]

/-! Claim theorems for the type-change safety classifier. -/

/-- C2: for every column C, the destructiveness check of ModifyColumn applied
to C on both sides (identical type string, identical character set) is false. -/
theorem modify_identical_column_safe (c : Column) (pf : Bool) (pa : Option Column) :
    ModifyColumn.Unsafe ⟨c, c, pf, pa⟩ = false :=
  Unsafe_false_of_eq _ rfl rfl

/-- C3 fails as stated: appending the entry unsigned (in single quotes) to an
enum value list satisfies every precondition of the claim, and the old type
string minus its closing delimiter is a leading segment of the new one, yet
Unsafe is true, because the signedness rule, which tests substring containment
of unsigned, fires before the enum/set rule is reached. -/
theorem enum_append_unsigned_cex :
    (hasPrefix (goToLower (gs "enum(\x27a\x27)")) (gs "enum") = true)
  ∧ (hasPrefix (goToLower (gs "enum(\x27a\x27,\x27unsigned\x27)")) (gs "enum") = true)
  ∧ (hasPrefix (goToLower (gs "enum(\x27a\x27,\x27unsigned\x27)"))
      ((goToLower (gs "enum(\x27a\x27)")).dropLast) = true)
  ∧ ModifyColumn.Unsafe
      ⟨⟨gs "enum(\x27a\x27)", gs "latin1"⟩,
       ⟨gs "enum(\x27a\x27,\x27unsigned\x27)", gs "latin1"⟩, false, none⟩ = true := by
  refine ⟨by decide, by decide, by decide, by decide⟩

/-- C3 (amended): for columns with equal character sets whose lowercased type
strings both start with enum or both with set, and in which the substring
unsigned occurs in both type strings or in neither, Unsafe is false exactly
when the old lowercased type string minus its final character is a leading
segment of the new one; any other edit of the value list yields true. -/
theorem enum_set_append_rule (mc : ModifyColumn)
    (hcs : mc.OldColumn.CharSet = mc.NewColumn.CharSet)
    (hsign : goContains (goToLower mc.OldColumn.TypeInDB) (gs "unsigned")
           = goContains (goToLower mc.NewColumn.TypeInDB) (gs "unsigned"))
    (hfam : (hasPrefix (goToLower mc.OldColumn.TypeInDB) (gs "enum") = true
              ∧ hasPrefix (goToLower mc.NewColumn.TypeInDB) (gs "enum") = true)
          ∨ (hasPrefix (goToLower mc.OldColumn.TypeInDB) (gs "set") = true
              ∧ hasPrefix (goToLower mc.NewColumn.TypeInDB) (gs "set") = true)) :
    mc.Unsafe = !hasPrefix (goToLower mc.NewColumn.TypeInDB)
                  (goToLower mc.OldColumn.TypeInDB).dropLast := by
  by_cases heq : goToLower mc.OldColumn.TypeInDB = goToLower mc.NewColumn.TypeInDB
  · rw [Unsafe_false_of_eq mc hcs heq, heq, hasPrefix_dropLast_self]
    rfl
  · rw [Unsafe_core mc hcs heq hsign]
    refine classifyTail_enum_set _ _ ?_
    rcases hfam with ⟨h1, h2⟩ | ⟨h1, h2⟩ <;> simp [bothSamePrefix, h1, h2]

/-- Witness for C3 (amended): appending a value at the end of an enum list is
safe, reordering the list is unsafe. -/
theorem enum_set_append_rule_witness :
    ModifyColumn.Unsafe ⟨⟨gs "enum(\x27a\x27,\x27b\x27)", gs "l1"⟩,
      ⟨gs "enum(\x27a\x27,\x27b\x27,\x27c\x27)", gs "l1"⟩, false, none⟩ = false
  ∧ ModifyColumn.Unsafe ⟨⟨gs "enum(\x27a\x27,\x27b\x27)", gs "l1"⟩,
      ⟨gs "enum(\x27b\x27,\x27a\x27)", gs "l1"⟩, false, none⟩ = true := by
  constructor
  · rw [enum_set_append_rule _ rfl (by decide) (Or.inl ⟨by decide, by decide⟩)]
    decide
  · rw [enum_set_append_rule _ rfl (by decide) (Or.inl ⟨by decide, by decide⟩)]
    decide

/-- C4: for columns with equal character sets, agreeing signedness and
distinct lowercased type strings both starting with decimal, Unsafe is true
when either side fails to parse as decimal(p,s), and otherwise true exactly
when the new precision is below the old precision or the new scale is below
the old scale. -/
theorem decimal_shrink_rule (mc : ModifyColumn)
    (hcs : mc.OldColumn.CharSet = mc.NewColumn.CharSet)
    (hne : goToLower mc.OldColumn.TypeInDB ≠ goToLower mc.NewColumn.TypeInDB)
    (hsign : goContains (goToLower mc.OldColumn.TypeInDB) (gs "unsigned")
           = goContains (goToLower mc.NewColumn.TypeInDB) (gs "unsigned"))
    (ho : hasPrefix (goToLower mc.OldColumn.TypeInDB) (gs "decimal") = true)
    (hn : hasPrefix (goToLower mc.NewColumn.TypeInDB) (gs "decimal") = true) :
    mc.Unsafe =
      match matchTwoNums (gs "decimal") (goToLower mc.OldColumn.TypeInDB),
            matchTwoNums (gs "decimal") (goToLower mc.NewColumn.TypeInDB) with
      | some (oldPrecision, oldScale), some (newPrecision, newScale) =>
        decide (newPrecision < oldPrecision) || decide (newScale < oldScale)
      | _, _ => true := by
  rw [Unsafe_core mc hcs hne hsign]
  exact classifyTail_decimal _ _ ho hn

/-- Witness for C4 at the three spec examples. -/
theorem decimal_shrink_rule_witness :
    ModifyColumn.Unsafe ⟨⟨gs "decimal(10,2)", []⟩, ⟨gs "decimal(12,2)", []⟩, false, none⟩ = false
  ∧ ModifyColumn.Unsafe ⟨⟨gs "decimal(10,2)", []⟩, ⟨gs "decimal(8,2)", []⟩, false, none⟩ = true
  ∧ ModifyColumn.Unsafe ⟨⟨gs "decimal(10,2)", []⟩, ⟨gs "decimal(10,1)", []⟩, false, none⟩ = true := by
  refine ⟨?_, ?_, ?_⟩ <;>
    · rw [decimal_shrink_rule _ rfl (by decide) (by decide) (by decide) (by decide)]
      decide

/-- C5: for columns with equal character sets, agreeing signedness and
distinct lowercased type strings both starting with varchar or both with
varbinary, Unsafe is true when either side fails to parse as name(n), and
otherwise true exactly when the new declared length is strictly below the old
declared length. -/
theorem varchar_shrink_rule (mc : ModifyColumn)
    (hcs : mc.OldColumn.CharSet = mc.NewColumn.CharSet)
    (hne : goToLower mc.OldColumn.TypeInDB ≠ goToLower mc.NewColumn.TypeInDB)
    (hsign : goContains (goToLower mc.OldColumn.TypeInDB) (gs "unsigned")
           = goContains (goToLower mc.NewColumn.TypeInDB) (gs "unsigned"))
    (hfam : (hasPrefix (goToLower mc.OldColumn.TypeInDB) (gs "varchar") = true
              ∧ hasPrefix (goToLower mc.NewColumn.TypeInDB) (gs "varchar") = true)
          ∨ (hasPrefix (goToLower mc.OldColumn.TypeInDB) (gs "varbinary") = true
              ∧ hasPrefix (goToLower mc.NewColumn.TypeInDB) (gs "varbinary") = true)) :
    mc.Unsafe =
      match matchVar (goToLower mc.OldColumn.TypeInDB),
            matchVar (goToLower mc.NewColumn.TypeInDB) with
      | some oldSize, some newSize => decide (newSize < oldSize)
      | _, _ => true := by
  rw [Unsafe_core mc hcs hne hsign]
  exact classifyTail_var _ _ hfam

/-- Witness for C5 at the two spec examples. -/
theorem varchar_shrink_rule_witness :
    ModifyColumn.Unsafe ⟨⟨gs "varchar(50)", gs "utf8"⟩,
      ⟨gs "varchar(100)", gs "utf8"⟩, false, none⟩ = false
  ∧ ModifyColumn.Unsafe ⟨⟨gs "varchar(100)", gs "utf8"⟩,
      ⟨gs "varchar(50)", gs "utf8"⟩, false, none⟩ = true := by
  constructor <;>
    · rw [varchar_shrink_rule _ rfl (by decide) (by decide) (Or.inl ⟨by decide, by decide⟩)]
      decide

/-- C6: for columns with equal character sets and distinct lowercased type
strings in which the substring unsigned occurs on exactly one of the two
sides, Unsafe is true, regardless of any accompanying width change. -/
theorem signedness_flip_rule (mc : ModifyColumn)
    (hcs : mc.OldColumn.CharSet = mc.NewColumn.CharSet)
    (hne : goToLower mc.OldColumn.TypeInDB ≠ goToLower mc.NewColumn.TypeInDB)
    (hsign : goContains (goToLower mc.OldColumn.TypeInDB) (gs "unsigned")
           ≠ goContains (goToLower mc.NewColumn.TypeInDB) (gs "unsigned")) :
    mc.Unsafe = true := by
  have hcond : ((goContains (goToLower mc.OldColumn.TypeInDB) (gs "unsigned")
        && !goContains (goToLower mc.NewColumn.TypeInDB) (gs "unsigned"))
      || (!goContains (goToLower mc.OldColumn.TypeInDB) (gs "unsigned")
        && goContains (goToLower mc.NewColumn.TypeInDB) (gs "unsigned"))) = true := by
    cases ha : goContains (goToLower mc.OldColumn.TypeInDB) (gs "unsigned") <;>
      cases hb : goContains (goToLower mc.NewColumn.TypeInDB) (gs "unsigned") <;>
      simp_all
  unfold ModifyColumn.Unsafe
  rw [if_neg (by simp [hcs]), if_neg hne, if_pos hcond]

/-- Witness for C6 at the spec example of widening int unsigned to bigint. -/
theorem signedness_flip_rule_witness :
    ModifyColumn.Unsafe ⟨⟨gs "int unsigned", []⟩, ⟨gs "bigint", []⟩, false, none⟩ = true :=
  signedness_flip_rule _ rfl (by decide) (by decide)

/-- C7: for columns with equal character sets, agreeing signedness and
distinct lowercased type strings, when both sides start with float, both with
double, or the old with float and the new with double, Unsafe is false when
the new side has no parenthetical, true when the new side has one but the old
side has none, and otherwise decided by comparing parsed precision and scale
(with a failed parse conservatively true); and a change from a double type
string to a float type string is always unsafe. -/
theorem float_double_rule (mc : ModifyColumn)
    (hcs : mc.OldColumn.CharSet = mc.NewColumn.CharSet)
    (hne : goToLower mc.OldColumn.TypeInDB ≠ goToLower mc.NewColumn.TypeInDB)
    (hsign : goContains (goToLower mc.OldColumn.TypeInDB) (gs "unsigned")
           = goContains (goToLower mc.NewColumn.TypeInDB) (gs "unsigned")) :
    (((hasPrefix (goToLower mc.OldColumn.TypeInDB) (gs "float") = true
        ∧ hasPrefix (goToLower mc.NewColumn.TypeInDB) (gs "float") = true)
      ∨ (hasPrefix (goToLower mc.OldColumn.TypeInDB) (gs "double") = true
        ∧ hasPrefix (goToLower mc.NewColumn.TypeInDB) (gs "double") = true)
      ∨ (hasPrefix (goToLower mc.OldColumn.TypeInDB) (gs "float") = true
        ∧ hasPrefix (goToLower mc.NewColumn.TypeInDB) (gs "double") = true)) →
      mc.Unsafe =
        (if !containsRune (goToLower mc.NewColumn.TypeInDB) '(' then false
         else if !containsRune (goToLower mc.OldColumn.TypeInDB) '(' then true
         else
           match matchFD (goToLower mc.OldColumn.TypeInDB),
                 matchFD (goToLower mc.NewColumn.TypeInDB) with
           | some (oldPrecision, oldScale), some (newPrecision, newScale) =>
             decide (newPrecision < oldPrecision) || decide (newScale < oldScale)
           | _, _ => true))
  ∧ ((hasPrefix (goToLower mc.OldColumn.TypeInDB) (gs "double") = true
        ∧ hasPrefix (goToLower mc.NewColumn.TypeInDB) (gs "float") = true) →
      mc.Unsafe = true) := by
  constructor
  · intro hfam
    rw [Unsafe_core mc hcs hne hsign]
    exact classifyTail_fd _ _ hfam
  · rintro ⟨ho, hn⟩
    rw [Unsafe_core mc hcs hne hsign]
    exact classifyTail_double_float _ _ ho hn

/-- Witness for C7 at the spec examples: dropping the parenthetical of a
double is safe, adding one is unsafe, and double to float is unsafe. -/
theorem float_double_rule_witness :
    ModifyColumn.Unsafe ⟨⟨gs "double(8,2)", []⟩, ⟨gs "double", []⟩, false, none⟩ = false
  ∧ ModifyColumn.Unsafe ⟨⟨gs "double", []⟩, ⟨gs "double(8,2)", []⟩, false, none⟩ = true
  ∧ ModifyColumn.Unsafe ⟨⟨gs "double", []⟩, ⟨gs "float", []⟩, false, none⟩ = true := by
  refine ⟨?_, ?_, ?_⟩
  · rw [(float_double_rule _ rfl (by decide) (by decide)).1
        (Or.inr (Or.inl ⟨by decide, by decide⟩))]
    decide
  · rw [(float_double_rule _ rfl (by decide) (by decide)).1
        (Or.inr (Or.inl ⟨by decide, by decide⟩))]
    decide
  · exact (float_double_rule _ rfl (by decide) (by decide)).2 ⟨by decide, by decide⟩

/-- C10: the fractional-second-precision family is matched by the shared
leading segment time, so a change between a timestamp column and a time
column with equal character sets is classified by the fsp rule; in particular
when the old lowercased type string has no parenthetical the change is safe,
covering timestamp changed to time(6) and time changed to timestamp(6). -/
theorem time_cross_family_rule (mc : ModifyColumn)
    (hcs : mc.OldColumn.CharSet = mc.NewColumn.CharSet)
    (hsign : goContains (goToLower mc.OldColumn.TypeInDB) (gs "unsigned")
           = goContains (goToLower mc.NewColumn.TypeInDB) (gs "unsigned"))
    (ho : hasPrefix (goToLower mc.OldColumn.TypeInDB) (gs "time") = true)
    (hn : hasPrefix (goToLower mc.NewColumn.TypeInDB) (gs "time") = true)
    (hp : containsRune (goToLower mc.OldColumn.TypeInDB) '(' = false) :
    mc.Unsafe = false := by
  by_cases heq : goToLower mc.OldColumn.TypeInDB = goToLower mc.NewColumn.TypeInDB
  · exact Unsafe_false_of_eq mc hcs heq
  · rw [Unsafe_core mc hcs heq hsign]
    exact classifyTail_time_noparen _ _ ho hn hp

/-- Witness for C10 at its two examples: timestamp to time(6) and time to
timestamp(6) are both classified safe. -/
theorem time_cross_family_rule_witness :
    ModifyColumn.Unsafe ⟨⟨gs "timestamp", []⟩, ⟨gs "time(6)", []⟩, false, none⟩ = false
  ∧ ModifyColumn.Unsafe ⟨⟨gs "time", []⟩, ⟨gs "timestamp(6)", []⟩, false, none⟩ = false :=
  ⟨time_cross_family_rule _ rfl (by decide) (by decide) (by decide) (by decide),
   time_cross_family_rule _ rfl (by decide) (by decide) (by decide) (by decide)⟩

/-! Rendering configuration and the conditional clauses. -/

/-- Modelled from the spec: the auto-increment propagation policy values of
the rendering configuration (spec section 4.2).  The three named constants
follow their uses in alterclause.go; the fourth value is the default
always-propagate policy.  The type itself is declared outside the given
source file. -/
inductive NextAutoIncMode where
  | NextAutoIncIgnore
  | NextAutoIncIfIncreased
  | NextAutoIncIfAlready
  | NextAutoIncAlways
  deriving DecidableEq

/-- Modelled from the spec: StatementModifiers (spec section 4.2), restricted
to the three options alterclause.go reads.  The structure is declared outside
the given source file. -/
structure StatementModifiers where
  StrictIndexOrder : Bool
  StrictForeignKeyNaming : Bool
  NextAutoInc : NextAutoIncMode

/-- A nonempty string stays nonempty under appending on the right. -/
theorem append_ne_empty_left (s t : String) (h : s.data ≠ []) : s ++ t ≠ "" := by
  intro he
  apply h
  have hd : (s ++ t).data = ([] : List Char) := by rw [he]
  rw [String.data_append] at hd
  exact (List.append_eq_nil.mp hd).1

/-- ChangeAutoIncrement represents a difference in next-auto-increment value
between two versions of a table.  The fields are uint64 in the source; only
order comparisons are performed on them, which agree with the Nat order on
the represented values, so they are modelled as Nat. -/
structure ChangeAutoIncrement where
  OldNextAutoIncrement : Nat
  NewNextAutoIncrement : Nat

/-- Translation of ChangeAutoIncrement.Clause of alterclause.go. -/
def ChangeAutoIncrement.Clause (cai : ChangeAutoIncrement) (mods : StatementModifiers) : String :=
  if mods.NextAutoInc = NextAutoIncMode.NextAutoIncIgnore then ""
  else if mods.NextAutoInc = NextAutoIncMode.NextAutoIncIfIncreased
      ∧ cai.OldNextAutoIncrement ≥ cai.NewNextAutoIncrement then ""
  else if mods.NextAutoInc = NextAutoIncMode.NextAutoIncIfAlready
      ∧ cai.OldNextAutoIncrement ≤ 1 then ""
  else "AUTO_INCREMENT = " ++ toString cai.NewNextAutoIncrement

/-- C8: the auto-increment clause renders empty under the ignore policy;
under only-if-increased it renders empty exactly when the new next-value is
not strictly greater than the old one; under only-if-already-set it renders
empty exactly when the old next-value is at most 1; and in every remaining
case it renders the new next-value, a nonempty text. -/
theorem auto_inc_policy_rule (cai : ChangeAutoIncrement) (mods : StatementModifiers) :
    (mods.NextAutoInc = NextAutoIncMode.NextAutoIncIgnore → cai.Clause mods = "")
  ∧ (mods.NextAutoInc = NextAutoIncMode.NextAutoIncIfIncreased →
      (cai.Clause mods = "" ↔ ¬ cai.OldNextAutoIncrement < cai.NewNextAutoIncrement))
  ∧ (mods.NextAutoInc = NextAutoIncMode.NextAutoIncIfAlready →
      (cai.Clause mods = "" ↔ cai.OldNextAutoIncrement ≤ 1))
  ∧ (mods.NextAutoInc = NextAutoIncMode.NextAutoIncAlways →
      cai.Clause mods = "AUTO_INCREMENT = " ++ toString cai.NewNextAutoIncrement)
  ∧ (cai.Clause mods = "" ∨
      cai.Clause mods = "AUTO_INCREMENT = " ++ toString cai.NewNextAutoIncrement)
  ∧ ("AUTO_INCREMENT = " ++ toString cai.NewNextAutoIncrement ≠ "") := by
  have hfull : ("AUTO_INCREMENT = " ++ toString cai.NewNextAutoIncrement) ≠ ("" : String) :=
    append_ne_empty_left _ _ (by decide)
  refine ⟨?_, ?_, ?_, ?_, ?_, hfull⟩
  · intro h; simp [ChangeAutoIncrement.Clause, h]
  · intro h
    by_cases hge : cai.NewNextAutoIncrement ≤ cai.OldNextAutoIncrement
    · unfold ChangeAutoIncrement.Clause
      rw [h, if_neg (by simp), if_pos ⟨rfl, hge⟩]
      exact iff_of_true rfl (by omega)
    · unfold ChangeAutoIncrement.Clause
      rw [h, if_neg (by simp), if_neg (by simp [hge]), if_neg (by simp)]
      exact iff_of_false hfull (not_not_intro (by omega))
  · intro h
    by_cases hle : cai.OldNextAutoIncrement ≤ 1
    · unfold ChangeAutoIncrement.Clause
      rw [h, if_neg (by simp), if_neg (by simp), if_pos ⟨rfl, hle⟩]
      exact iff_of_true rfl hle
    · unfold ChangeAutoIncrement.Clause
      rw [h, if_neg (by simp), if_neg (by simp), if_neg (by simp [hle])]
      exact iff_of_false hfull hle
  · intro h; simp [ChangeAutoIncrement.Clause, h]
  · unfold ChangeAutoIncrement.Clause
    split
    · exact Or.inl rfl
    · split
      · exact Or.inl rfl
      · split
        · exact Or.inl rfl
        · exact Or.inr rfl

/-- Witness for C8: under only-if-increased, 1 to 5 renders the new value,
7 to 5 renders empty. -/
theorem auto_inc_policy_rule_witness :
    ChangeAutoIncrement.Clause ⟨1, 5⟩ ⟨false, false, NextAutoIncMode.NextAutoIncIfIncreased⟩
      = "AUTO_INCREMENT = 5"
  ∧ ChangeAutoIncrement.Clause ⟨7, 5⟩ ⟨false, false, NextAutoIncMode.NextAutoIncIfIncreased⟩
      = "" := by
  constructor
  · have h := auto_inc_policy_rule ⟨1, 5⟩ ⟨false, false, NextAutoIncMode.NextAutoIncIfIncreased⟩
    rcases h.2.2.2.2.1 with he | hf
    · exact absurd ((h.2.1 rfl).mp he) (by decide)
    · rw [hf]; decide
  · exact ((auto_inc_policy_rule ⟨7, 5⟩
      ⟨false, false, NextAutoIncMode.NextAutoIncIfIncreased⟩).2.1 rfl).mpr (by decide)

/-- Modelled from the spec: an index exposes a definition-rendering
operation, a name, and a primary-key flag (spec sections 3 and 6); the
structural model is outside the given source file, so Definition carries the
text its rendering operation produces. -/
structure Index where
  Name : String
  PrimaryKey : Bool
  Definition : String

/-- Modelled from the spec: a foreign key exposes a definition-rendering
operation and a name (spec section 6). -/
structure ForeignKey where
  Name : String
  Definition : String

/-- Modelled from the spec: the identifier-escaping utility required of the
structural model (spec section 6).  The exact escaping is unspecified there;
the claims depend only on the text surrounding its result, so backtick
wrapping stands in for it. -/
def EscapeIdentifier (ident : String) : String := "\x60" ++ ident ++ "\x60"

/-- AddIndex represents an index present on the right-side version of the
table but not identically present on the left-side version. -/
structure AddIndex where
  Index : Index
  reorderOnly : Bool

/-- DropIndex represents an index present on the left-side version of the
table but not identically present on the right-side version. -/
structure DropIndex where
  Index : Index
  reorderOnly : Bool

/-- AddForeignKey represents a foreign key present only on the right-side
version of the table. -/
structure AddForeignKey where
  ForeignKey : ForeignKey
  renameOnly : Bool

/-- DropForeignKey represents a foreign key present only on the left-side
version of the table. -/
structure DropForeignKey where
  ForeignKey : ForeignKey
  renameOnly : Bool

/-- Translation of AddIndex.Clause of alterclause.go. -/
def AddIndex.Clause (ai : AddIndex) (mods : StatementModifiers) : String :=
  if !mods.StrictIndexOrder && ai.reorderOnly then ""
  else "ADD " ++ ai.Index.Definition

/-- Translation of DropIndex.Clause of alterclause.go. -/
def DropIndex.Clause (di : DropIndex) (mods : StatementModifiers) : String :=
  if !mods.StrictIndexOrder && di.reorderOnly then ""
  else if di.Index.PrimaryKey then "DROP PRIMARY KEY"
  else "DROP KEY " ++ EscapeIdentifier di.Index.Name

/-- Translation of AddForeignKey.Clause of alterclause.go. -/
def AddForeignKey.Clause (afk : AddForeignKey) (mods : StatementModifiers) : String :=
  if !mods.StrictForeignKeyNaming && afk.renameOnly then ""
  else "ADD " ++ afk.ForeignKey.Definition

/-- Translation of DropForeignKey.Clause of alterclause.go. -/
def DropForeignKey.Clause (dfk : DropForeignKey) (mods : StatementModifiers) : String :=
  if !mods.StrictForeignKeyNaming && dfk.renameOnly then ""
  else "DROP FOREIGN KEY " ++ EscapeIdentifier dfk.ForeignKey.Name

/-- C9: a reorder-only AddIndex or DropIndex renders empty exactly under a
configuration without strict index ordering and renders the real DDL text
under the strict flag, and the same pairing holds for rename-only foreign
keys under strict foreign-key naming; the unsuppressed forms are nonempty. -/
theorem reorder_rename_only_rule (idx : Index) (fk : ForeignKey) (mods : StatementModifiers) :
    (AddIndex.Clause ⟨idx, true⟩ mods
       = if mods.StrictIndexOrder then "ADD " ++ idx.Definition else "")
  ∧ (DropIndex.Clause ⟨idx, true⟩ mods
       = if mods.StrictIndexOrder then
           (if idx.PrimaryKey then "DROP PRIMARY KEY" else "DROP KEY " ++ EscapeIdentifier idx.Name)
         else "")
  ∧ (AddForeignKey.Clause ⟨fk, true⟩ mods
       = if mods.StrictForeignKeyNaming then "ADD " ++ fk.Definition else "")
  ∧ (DropForeignKey.Clause ⟨fk, true⟩ mods
       = if mods.StrictForeignKeyNaming then "DROP FOREIGN KEY " ++ EscapeIdentifier fk.Name
         else "")
  ∧ ("ADD " ++ idx.Definition ≠ "")
  ∧ ((if idx.PrimaryKey then "DROP PRIMARY KEY" else "DROP KEY " ++ EscapeIdentifier idx.Name)
       ≠ "")
  ∧ ("ADD " ++ fk.Definition ≠ "")
  ∧ ("DROP FOREIGN KEY " ++ EscapeIdentifier fk.Name ≠ "") := by
  refine ⟨?_, ?_, ?_, ?_, append_ne_empty_left _ _ (by decide), ?_,
    append_ne_empty_left _ _ (by decide), append_ne_empty_left _ _ (by decide)⟩
  · cases h : mods.StrictIndexOrder <;> simp [AddIndex.Clause, h]
  · cases h : mods.StrictIndexOrder <;> simp [DropIndex.Clause, h]
  · cases h : mods.StrictForeignKeyNaming <;> simp [AddForeignKey.Clause, h]
  · cases h : mods.StrictForeignKeyNaming <;> simp [DropForeignKey.Clause, h]
  · cases hpk : idx.PrimaryKey
    · simpa [hpk] using append_ne_empty_left "DROP KEY " (EscapeIdentifier idx.Name) (by decide)
    · simp [hpk]

/-- Witness for C9: a reorder-only index addition renders empty without
strict index ordering and renders the definition text with it. -/
theorem reorder_rename_only_rule_witness :
    AddIndex.Clause ⟨⟨"k", false, "KEY k (c)"⟩, true⟩
      ⟨false, false, NextAutoIncMode.NextAutoIncAlways⟩ = ""
  ∧ AddIndex.Clause ⟨⟨"k", false, "KEY k (c)"⟩, true⟩
      ⟨true, false, NextAutoIncMode.NextAutoIncAlways⟩ = "ADD KEY k (c)" := by
  constructor
  · rw [(reorder_rename_only_rule ⟨"k", false, "KEY k (c)"⟩ ⟨"f", "c"⟩
      ⟨false, false, NextAutoIncMode.NextAutoIncAlways⟩).1]
    decide
  · rw [(reorder_rename_only_rule ⟨"k", false, "KEY k (c)"⟩ ⟨"f", "c"⟩
      ⟨true, false, NextAutoIncMode.NextAutoIncAlways⟩).1]
    decide

/-! The create-options differ. -/

/-- ChangeCreateOptions represents a difference in the create options between
two versions of a table. -/
structure ChangeCreateOptions where
  OldCreateOptions : GoStr
  NewCreateOptions : GoStr

/-- Model of strings.Split on a one-character separator: splits at every
occurrence, keeping empty fields, and yields one field for the empty input. -/
def splitOnChar (sep : Char) : GoStr → List GoStr
  | [] => [[]]
  | c :: rest =>
    let r := splitOnChar sep rest
    if c = sep then [] :: r else (c :: r.headD []) :: r.tail

/-- Model of assignment into a Go map from option keys to values: an
association list with unique keys, where assignment overwrites the existing
binding of the key. -/
def mapInsert (m : List (GoStr × GoStr)) (k v : GoStr) : List (GoStr × GoStr) :=
  if m.any (fun p => p.1 == k) then m.map (fun p => if p.1 == k then (k, v) else p)
  else m ++ [(k, v)]

/-- Model of a Go map read with ok flag: association-list lookup. -/
def mapLookup (m : List (GoStr × GoStr)) (k : GoStr) : Option GoStr :=
  (m.find? (fun p => p.1 == k)).map (fun p => p.2)

/-- Translation of the splitOpts closure of ChangeCreateOptions.Clause:
space-separated tokens that split into exactly two fields at the equals sign
populate the map, later tokens overwriting earlier ones. -/
def splitOpts (full : GoStr) : List (GoStr × GoStr) :=
  (splitOnChar ' ' full).foldl
    (fun m kv =>
      match splitOnChar '=' kv with
      | [k, v] => mapInsert m k v
      | _ => m) []

/-- The knownDefaults table of ChangeCreateOptions.Clause.  The Go map is
only ever read pointwise, so an association list represents it exactly. -/
def knownDefaults : List (GoStr × GoStr) :=
  [(gs "MIN_ROWS", gs "0"), (gs "MAX_ROWS", gs "0"), (gs "AVG_ROW_LENGTH", gs "0"),
   (gs "PACK_KEYS", gs "DEFAULT"), (gs "STATS_PERSISTENT", gs "DEFAULT"),
   (gs "STATS_AUTO_RECALC", gs "DEFAULT"), (gs "STATS_SAMPLE_PAGES", gs "DEFAULT"),
   (gs "CHECKSUM", gs "0"), (gs "DELAY_KEY_WRITE", gs "0"),
   (gs "ROW_FORMAT", gs "DEFAULT"), (gs "KEY_BLOCK_SIZE", gs "0")]

/-- Translation of ChangeCreateOptions.Clause, made explicit about the one
point where Go leaves behavior unspecified: the two range loops of the source
visit the entries of the oldOpts and newOpts maps in an arbitrary,
unspecified order, so the iteration orders are parameters here; every other
step is a direct translation of the loop bodies and the final space join. -/
def ChangeCreateOptions.ClauseWith (cco : ChangeCreateOptions)
    (oldIter newIter : List (GoStr × GoStr)) : GoStr :=
  let oldOpts := splitOpts cco.OldCreateOptions
  let newOpts := splitOpts cco.NewCreateOptions
  let fromOld := oldIter.filterMap (fun kv =>
    match mapLookup newOpts kv.1 with
    | some newValue =>
      if newValue ≠ kv.2 then some (kv.1 ++ ['='] ++ newValue) else none
    | none => some (kv.1 ++ ['='] ++ ((mapLookup knownDefaults kv.1).getD (gs "DEFAULT"))))
  let fromNew := newIter.filterMap (fun kv =>
    match mapLookup oldOpts kv.1 with
    | some _ => none
    | none => some (kv.1 ++ ['='] ++ kv.2))
  List.intercalate [' '] (fromOld ++ fromNew)

/-- An iteration order of a Go map visits each entry exactly once in an
unspecified order: it is some permutation of the entries of the map. -/
def IsIterationOf (iter m : List (GoStr × GoStr)) : Prop := iter.Perm m

/-- C1 fails on the code: the emitted assignments follow the unspecified Go
map iteration order, not a fixed order.  The two iteration orders below both
enumerate the old-options map of the same input (with the empty new-options
map), yet the rendered texts differ, so re-running the render on unchanged
inputs need not be byte-identical and the order is not fixed. -/
theorem create_options_order_cex :
    IsIterationOf [(gs "A", gs "1"), (gs "B", gs "2")] (splitOpts (gs "A=1 B=2"))
  ∧ IsIterationOf [(gs "B", gs "2"), (gs "A", gs "1")] (splitOpts (gs "A=1 B=2"))
  ∧ IsIterationOf [] (splitOpts (gs ""))
  ∧ ChangeCreateOptions.ClauseWith ⟨gs "A=1 B=2", gs ""⟩
      [(gs "A", gs "1"), (gs "B", gs "2")] [] = gs "A=DEFAULT B=DEFAULT"
  ∧ ChangeCreateOptions.ClauseWith ⟨gs "A=1 B=2", gs ""⟩
      [(gs "B", gs "2"), (gs "A", gs "1")] [] = gs "B=DEFAULT A=DEFAULT"
  ∧ gs "A=DEFAULT B=DEFAULT" ≠ gs "B=DEFAULT A=DEFAULT" := by
  refine ⟨?_, ?_, ?_, by decide, by decide, by decide⟩ <;>
    · unfold IsIterationOf
      decide

end Tengo
